import Mathlib

/-
Verification development for the dx.py HF propagation CLI.

Modelling conventions:
 - JSON values are modelled by the inductive type JVal; a JSON object is an
   association list of key/value pairs in insertion order (Python dicts keep
   insertion order and have unique keys).
 - The fetched document is the field list of the top-level JSON object.
 - Numbers are modelled as rationals, abstracting the int/float distinction.
 - A Python function that can raise an exception on malformed input is
   modelled as returning an Option, with none standing for the raised
   exception; text rendering of a line is abstracted into a constructor
   carrying the data interpolated into the line, so that theorems speak
   about which lines appear and with which values.
 - json.dumps followed by json.loads is modelled as the identity on JSON
   values (pretty-printing whitespace is not observable at the value level),
   so format_json returns the JSON value it would serialize.
-/

/-- A JSON value: null, booleans, numbers, strings and objects.
Objects are association lists in insertion order. -/
inductive JVal where
  | null : JVal
  | bool (b : Bool) : JVal
  | num (q : ℚ) : JVal
  | str (s : String) : JVal
  | obj (fields : List (String × JVal)) : JVal

/-- The field list of a JSON object. -/
abbrev Fields := List (String × JVal)

/-- Lookup of a key in an object, first match (Python dicts have unique keys). -/
def fieldsLookup : Fields → String → Option JVal
  | [], _ => none
  | (k, v) :: rest, key => if k = key then some v else fieldsLookup rest key

/-- Key membership in an object, as in the Python test `key in d`. -/
def fieldsContains (fs : Fields) (key : String) : Bool :=
  (fieldsLookup fs key).isSome

/-- Dict update `d[k] = v`: replaces the value in place if the key exists,
otherwise appends the pair (Python dicts keep first-insertion position). -/
def insertField : Fields → String → JVal → Fields
  | [], k, v => [(k, v)]
  | (k', v') :: rest, k, v =>
      if k' = k then (k, v) :: rest else (k', v') :: insertField rest k v

/-- Removal of every pair with the given key. -/
def eraseKey : Fields → String → Fields
  | [], _ => []
  | (k, v) :: rest, key =>
      if k = key then eraseKey rest key else (k, v) :: eraseKey rest key

/-- Whether pat occurs as a leading block of cs. -/
def leadsWith : List Char → List Char → Bool
  | [], _ => true
  | _ :: _, [] => false
  | p :: ps, c :: cs => p = c && leadsWith ps cs

/-- Whether pat occurs contiguously anywhere in cs (Python substring test). -/
def hasSub (pat : List Char) : List Char → Bool
  | [] => leadsWith pat []
  | c :: cs => leadsWith pat (c :: cs) || hasSub pat cs

/-- Python truthiness of a JSON value: None, False, 0, the empty string and
the empty dict are falsy, everything else is truthy. -/
def truthy : JVal → Bool
  | .null => false
  | .bool b => b
  | .num q => decide (q ≠ 0)
  | .str s => decide (s ≠ "")
  | .obj fs => !fs.isEmpty

/-- The Python membership test `key in v`: key lookup on a dict, substring
test on a string, a TypeError (none) on other values. -/
def pyContains (v : JVal) (key : String) : Option Bool :=
  match v with
  | .obj fs => some (fieldsContains fs key)
  | .str s => some (hasSub key.toList s.toList)
  | _ => none

/-- The Python subscript `v[key]`: none models a KeyError or TypeError. -/
def pyGetItem (v : JVal) (key : String) : Option JVal :=
  match v with
  | .obj fs => fieldsLookup fs key
  | _ => none

/-- The Python call `v.get(key, dflt)`: none models the AttributeError
raised when v is not a dict. -/
def pyGet (v : JVal) (key : String) (dflt : JVal) : Option JVal :=
  match v with
  | .obj fs => some ((fieldsLookup fs key).getD dflt)
  | _ => none

/-- A numeric view of a value, as accepted by a numeric format spec such as
`:.1f`: numbers and booleans (Python booleans are integers) format, every
other value raises. -/
def asNum : JVal → Option ℚ
  | .num q => some q
  | .bool b => some (if b then 1 else 0)
  | _ => none

/-- ALL_BANDS from dx.py: the canonical band list. -/
def ALL_BANDS : List String := ["10m", "15m", "20m", "40m"]

/-- The ordered rating scale from check_alert in dx.py. -/
def rating_order : List String := ["VeryPoor", "Poor", "Fair", "Good", "Excellent"]

/-- The position of a rating value in the rating scale: the Python test
`rating in rating_order` followed by `rating_order.index(rating)`; a value
that is not one of the five names (including every non-string) has no
position. -/
def ratingIndex : JVal → Option Nat
  | .str s => if s ∈ rating_order then some (rating_order.indexOf s) else none
  | _ => none

/-- Band selection in main (dx.py lines 262-267): default to ALL_BANDS when
no positional band arguments are given, otherwise keep the arguments that
are canonical bands; none models the error exit when the filter empties
the list. -/
def selectBands (args_bands : List String) : Option (List String) :=
  if args_bands = [] then some ALL_BANDS
  else
    let bands := args_bands.filter fun b => decide (b ∈ ALL_BANDS)
    if bands = [] then none else some bands

/-- The band loop of check_alert: scan the requested bands, return true at
the first requested-and-present band whose rating position reaches
min_level; none models an exception on a malformed bands value. -/
def alertLoop (band_data : JVal) (min_level : Nat) : List String → Option Bool
  | [] => some false
  | b :: rest =>
    match pyContains band_data b with
    | none => none
    | some false => alertLoop band_data min_level rest
    | some true =>
      match pyGetItem band_data b with
      | none => none
      | some (JVal.obj gs) =>
        match ratingIndex ((fieldsLookup gs "rating").getD (JVal.str "VeryPoor")) with
        | some i =>
            if min_level ≤ i then some true
            else alertLoop band_data min_level rest
        | none => alertLoop band_data min_level rest
      | some _ => none

/-- check_alert from dx.py: false for a threshold outside the scale,
otherwise scan the requested bands against the threshold position. -/
def check_alert (data : Fields) (bands : List String) (min_rating : String) : Option Bool :=
  if min_rating ∈ rating_order then
    alertLoop ((fieldsLookup data "bands").getD (JVal.obj []))
      (rating_order.indexOf min_rating) bands
  else some false

/-- The dict comprehension in format_json: walk the requested bands, keep
those present in the bands value, building a dict (later duplicates
overwrite in place). -/
def jsonBandsLoop (band_data : JVal) (acc : Fields) : List String → Option Fields
  | [] => some acc
  | b :: rest =>
    match pyContains band_data b with
    | none => none
    | some false => jsonBandsLoop band_data acc rest
    | some true =>
      match pyGet band_data b JVal.null with
      | none => none
      | some v => jsonBandsLoop band_data (insertField acc b v) rest

/-- format_json from dx.py, at the JSON value level: the whole document
when the requested list is ALL_BANDS, otherwise the reduced object with
keys updated, bands, solar and (when the document has one) storm. -/
def format_json (data : Fields) (bands : List String) : Option JVal :=
  if bands = ALL_BANDS then some (JVal.obj data)
  else
    match jsonBandsLoop ((fieldsLookup data "bands").getD (JVal.obj [])) [] bands with
    | none => none
    | some fb =>
      let base : Fields :=
        [("updated", (fieldsLookup data "updated").getD JVal.null),
         ("bands", JVal.obj fb),
         ("solar", (fieldsLookup data "solar").getD JVal.null)]
      some (JVal.obj
        (if fieldsContains data "storm" then
          base ++ [("storm", (fieldsLookup data "storm").getD JVal.null)]
         else base))

/-- Two decimal digits. -/
def parse2 : List Char → Option (Nat × List Char)
  | a :: b :: rest =>
      if a.isDigit && b.isDigit then
        some ((a.toNat - 48) * 10 + (b.toNat - 48), rest)
      else none
  | _ => none

/-- Four decimal digits. -/
def parse4 : List Char → Option (Nat × List Char)
  | a :: b :: c :: d :: rest =>
      if a.isDigit && b.isDigit && c.isDigit && d.isDigit then
        some ((a.toNat - 48) * 1000 + (b.toNat - 48) * 100
              + (c.toNat - 48) * 10 + (d.toNat - 48), rest)
      else none
  | _ => none

/-- Consume one expected character. -/
def expectChar (c : Char) : List Char → Option (List Char)
  | [] => none
  | x :: rest => if x = c then some rest else none

/-- Gregorian leap year rule, as validated by the datetime constructor. -/
def isLeap (y : Nat) : Bool :=
  (decide (y % 4 = 0) && decide (y % 100 ≠ 0)) || decide (y % 400 = 0)

/-- Number of days in a month, as validated by the datetime constructor. -/
def daysInMonth (y mo : Nat) : Nat :=
  if mo = 2 then (if isLeap y then 29 else 28)
  else if mo = 4 ∨ mo = 6 ∨ mo = 9 ∨ mo = 11 then 30
  else 31

/-- The result of datetime.fromisoformat: a calendar timestamp with an
optional UTC offset in minutes. -/
structure PyDateTime where
  year : Nat
  month : Nat
  day : Nat
  hour : Nat
  minute : Nat
  second : Nat
  offsetMinutes : Option Int
  deriving DecidableEq

/-- Time of day HH[:MM[:SS[.digits]]]; the fractional part needs at least
one digit and is truncated away (the rendered line never shows it). -/
def parseTime (cs : List Char) : Option (Nat × Nat × Nat × List Char) :=
  match parse2 cs with
  | none => none
  | some (h, cs1) =>
    match cs1 with
    | ':' :: cs2 =>
      match parse2 cs2 with
      | none => none
      | some (mi, cs3) =>
        match cs3 with
        | ':' :: cs4 =>
          match parse2 cs4 with
          | none => none
          | some (s, cs5) =>
            match cs5 with
            | '.' :: cs6 =>
                if (cs6.takeWhile Char.isDigit).isEmpty then none
                else some (h, mi, s, cs6.dropWhile Char.isDigit)
            | ',' :: cs6 =>
                if (cs6.takeWhile Char.isDigit).isEmpty then none
                else some (h, mi, s, cs6.dropWhile Char.isDigit)
            | _ => some (h, mi, s, cs5)
        | _ => some (h, mi, 0, cs3)
    | _ => some (h, 0, 0, cs1)

/-- Optional UTC offset `+HH:MM`, `-HH:MM` or `±HH`; anything else is left
unconsumed (and later rejected as trailing input). -/
def parseOffset : List Char → Option (Option Int × List Char)
  | [] => some (none, [])
  | c :: cs =>
    if c = '+' ∨ c = '-' then
      match parse2 cs with
      | none => none
      | some (oh, cs1) =>
        let sgn : Int := if c = '-' then -1 else 1
        match cs1 with
        | ':' :: cs2 =>
          match parse2 cs2 with
          | none => none
          | some (om, cs3) =>
              if oh ≤ 23 ∧ om ≤ 59 then
                some (some (sgn * (oh * 60 + om)), cs3)
              else none
        | _ => if oh ≤ 23 then some (some (sgn * (oh * 60)), cs1) else none
    else some (none, c :: cs)

/-- Model of datetime.fromisoformat (Python 3.11 and later, core subset):
`YYYY-MM-DD`, optionally followed by one separator character, a time of
day and a UTC offset; every component is range-checked as the datetime
constructor does. -/
def fromisoformat (s : String) : Option PyDateTime :=
  match parse4 s.toList with
  | none => none
  | some (y, cs0) =>
    match expectChar '-' cs0 with
    | none => none
    | some cs1 =>
      match parse2 cs1 with
      | none => none
      | some (mo, cs2) =>
        match expectChar '-' cs2 with
        | none => none
        | some cs3 =>
          match parse2 cs3 with
          | none => none
          | some (d, cs4) =>
            if 1 ≤ y ∧ 1 ≤ mo ∧ mo ≤ 12 ∧ 1 ≤ d ∧ d ≤ daysInMonth y mo then
              match cs4 with
              | [] => some ⟨y, mo, d, 0, 0, 0, none⟩
              | _ :: cs5 =>
                match parseTime cs5 with
                | none => none
                | some (h, mi, s2, cs6) =>
                  match parseOffset cs6 with
                  | none => none
                  | some (off, cs7) =>
                    if h ≤ 23 ∧ mi ≤ 59 ∧ s2 ≤ 59 ∧ cs7 = [] then
                      some ⟨y, mo, d, h, mi, s2, off⟩
                    else none
            else none

/-- Model of the Python call `s.replace("Z", "+00:00")`: the pattern is a
single character, so every occurrence of Z anywhere in the string is
substituted independently. -/
def replaceZ (s : String) : String :=
  String.mk (s.toList.foldr
    (fun c acc =>
      if c = 'Z' then '+' :: '0' :: '0' :: ':' :: '0' :: '0' :: acc
      else c :: acc) [])

/-- SYMBOLS from dx.py. -/
def SYMBOLS : List (String × String) :=
  [("Excellent", "🔵"), ("Good", "🟢"), ("Fair", "🟠"),
   ("Poor", "🔴"), ("VeryPoor", "⚫")]

/-- SYMBOLS_ASCII from dx.py. -/
def SYMBOLS_ASCII : List (String × String) :=
  [("Excellent", "[++++]"), ("Good", "[+++ ]"), ("Fair", "[++  ]"),
   ("Poor", "[+   ]"), ("VeryPoor", "[    ]")]

/-- The Python call `symbols.get(rating, "?")`: a dict key must be
hashable, so a dict value raises; any other value misses and yields the
placeholder unless it is one of the five names. -/
def symbolLookup (symbols : List (String × String)) (rating : JVal) : Option String :=
  match rating with
  | .obj _ => none
  | .str s => some ((symbols.lookup s).getD "?")
  | _ => some "?"

/-- The `vs_typical` handling shared by the Standard and Compact renderers:
absent or falsy values give no arrow, a number gives an arrow exactly when
it exceeds 20, a truthy non-number raises on the comparison with 20
(True compares as 1 and gives no arrow). -/
def vsArrowOf : Option JVal → Option (Option ℚ)
  | none => some none
  | some w =>
    if truthy w then
      match w with
      | .num q => some (if 20 < q then some q else none)
      | .bool _ => some none
      | _ => none
    else some none

/-- One line of the Standard renderer, abstracted to the data interpolated
into it (the literal text, column packing and number formatting of a line
are not modelled; the ascii flag changes only glyphs inside a line). -/
inductive StdLine where
  | errorLine (msg : JVal)
  | blank
  | banner
  | title
  | tableHeader
  | tableRule
  | updatedLine (ts : PyDateTime)
  | bandRow (band : String) (idx : ℚ) (symbol : String) (rating : JVal)
      (arrow : Option ℚ) (fcst : ℚ) (fcstRating : JVal)
  | solarLine (sfi kp : ℚ)
  | stormWarn (prob kp : ℚ)
  | stormInfo (prob kp : ℚ)
  | sourceLine (src : String)

/-- One row of the Standard band table (dx.py lines 116-134): the band
entry must be a dict, index and forecast must format as numbers, the
rating must be hashable for the symbol lookup. -/
def stdBandRow (symbols : List (String × String)) (band : String) (d : JVal) : Option StdLine :=
  match d with
  | .obj fs =>
      (asNum ((fieldsLookup fs "index").getD (JVal.num 0))).bind fun idx =>
      (symbolLookup symbols ((fieldsLookup fs "rating").getD (JVal.str "?"))).bind fun symbol =>
      (asNum ((fieldsLookup fs "forecast").getD (JVal.num 0))).bind fun fcst =>
      (vsArrowOf (fieldsLookup fs "vs_typical")).bind fun arrow =>
      some (StdLine.bandRow band idx symbol ((fieldsLookup fs "rating").getD (JVal.str "?"))
        arrow fcst ((fieldsLookup fs "forecast_rating").getD (JVal.str "?")))
  | _ => none

/-- The Standard band loop: one row per requested band present in the
bands value, in request order. -/
def bandRows (band_data : JVal) (symbols : List (String × String)) :
    List String → Option (List StdLine)
  | [] => some []
  | b :: rest =>
    match pyContains band_data b with
    | none => none
    | some false => bandRows band_data symbols rest
    | some true =>
      match pyGetItem band_data b with
      | none => none
      | some d =>
        match stdBandRow symbols b d with
        | none => none
        | some line =>
          match bandRows band_data symbols rest with
          | none => none
          | some tail => some (line :: tail)

/-- The timestamp block (dx.py lines 101-106): replace Z, parse, render
one line on success; the bare except swallows any failure (including a
non-string value) and the block is total. -/
def updSeg : Option JVal → List StdLine
  | some (JVal.str u) =>
      match fromisoformat (replaceZ u) with
      | some ts => [StdLine.updatedLine ts]
      | none => []
  | _ => []

/-- The solar block (dx.py lines 139-141), applied to `data.get("solar", {})`:
emits the line exactly when both sfi and kp are truthy; both must then
format as numbers; a non-dict value raises on the first `.get`. -/
def solarSeg (v : JVal) : Option (List StdLine) :=
  match v with
  | .obj fs =>
    let sfi := (fieldsLookup fs "sfi").getD JVal.null
    let kp := (fieldsLookup fs "kp").getD JVal.null
    if truthy sfi && truthy kp then
      match asNum sfi, asNum kp with
      | some s, some k => some [StdLine.solarLine s k]
      | _, _ => none
    else some []
  | _ => none

/-- The storm lines for a numeric probability: at least 50 the warning
line, at least 30 the plain line, below 30 nothing; an emitted line needs
the predicted kp to format as a number. -/
def stormProbLines (prob : ℚ) (kpv : JVal) : Option (List StdLine) :=
  if 50 ≤ prob then
    match asNum kpv with
    | some k => some [StdLine.stormWarn prob k]
    | none => none
  else if 30 ≤ prob then
    match asNum kpv with
    | some k => some [StdLine.stormInfo prob k]
    | none => none
  else some []

/-- The storm lines for a present probability value: null means missing
(the `is not None` test), numbers and booleans compare against the
thresholds, anything else raises on the comparison. -/
def stormProbVal (pv kpv : JVal) : Option (List StdLine) :=
  match pv with
  | JVal.null => some []
  | JVal.num p => stormProbLines p kpv
  | JVal.bool b => stormProbLines (if b then 1 else 0) kpv
  | _ => none

/-- The storm lines of a storm dict: nothing when the probability key is
absent. -/
def stormLines (fs : Fields) : Option (List StdLine) :=
  match fieldsLookup fs "probability" with
  | none => some []
  | some pv => stormProbVal pv ((fieldsLookup fs "predicted_kp").getD (JVal.num 0))

/-- The storm block (dx.py lines 144-154), applied to `data.get("storm")`:
skipped when the value is falsy; a truthy non-dict raises on `.get`. -/
def stormSeg : Option JVal → Option (List StdLine)
  | none => some []
  | some (JVal.obj fs) => if truthy (JVal.obj fs) then stormLines fs else some []
  | some v => if truthy v then none else some []

/-- Scheme stripping for the footer (dx.py lines 158-162): drop a leading
`https://` or `http://` scheme. -/
def stripProto (s : String) : String :=
  if leadsWith "https://".toList s.toList then String.mk (s.toList.drop 8)
  else if leadsWith "http://".toList s.toList then String.mk (s.toList.drop 7)
  else s

/-- The footer source line, applied to `data.get("source", "wspr.hb9vqq.ch")`:
a non-string value raises on startswith. -/
def sourceSeg (v : JVal) : Option StdLine :=
  match v with
  | .str s => some (StdLine.sourceLine (stripProto s))
  | _ => none

/-- The full line layout of the Standard report, in source order: opening
banner block, optional timestamp, table header, band rows, solar and storm
blocks, closing banner and footer. -/
def assembled (upd rows solar storm : List StdLine) (src : StdLine) : List StdLine :=
  [StdLine.blank, StdLine.banner, StdLine.title, StdLine.banner]
    ++ upd ++ [StdLine.blank, StdLine.tableHeader, StdLine.tableRule]
    ++ rows ++ [StdLine.blank] ++ solar ++ storm
    ++ [StdLine.banner, src, StdLine.blank]

/-- format_standard from dx.py, as the list of emitted lines: an error
document short-circuits to the single error line; otherwise the banner,
the optional timestamp, the table, the optional solar and storm lines and
the footer, with none modelling an exception in any block. -/
def format_standard (data : Fields) (bands : List String) (use_ascii : Bool) :
    Option (List StdLine) :=
  match fieldsLookup data "error" with
  | some e => some [StdLine.errorLine e]
  | none =>
    match bandRows ((fieldsLookup data "bands").getD (JVal.obj []))
            (if use_ascii then SYMBOLS_ASCII else SYMBOLS) bands,
          solarSeg ((fieldsLookup data "solar").getD (JVal.obj [])),
          stormSeg (fieldsLookup data "storm"),
          sourceSeg ((fieldsLookup data "source").getD (JVal.str "wspr.hb9vqq.ch")) with
    | some rows, some solar, some storm, some src =>
        some (assembled (updSeg (fieldsLookup data "updated")) rows solar storm src)
    | _, _, _, _ => none

/-- One entry of the Compact output, abstracted to the data interpolated
into `band:rating(index)` with the optional arrow suffix. -/
structure CompactPart where
  band : String
  rating : JVal
  idx : ℚ
  arrow : Option ℚ

/-- The Compact output: either the single error line or the joined parts. -/
inductive CompactOut where
  | errorLine (msg : JVal)
  | parts (ps : List CompactPart)

/-- One Compact entry (dx.py lines 177-186). -/
def compactRow (band : String) (d : JVal) : Option CompactPart :=
  match d with
  | .obj fs =>
      (asNum ((fieldsLookup fs "index").getD (JVal.num 0))).bind fun idx =>
      (vsArrowOf (fieldsLookup fs "vs_typical")).bind fun arrow =>
      some ⟨band, (fieldsLookup fs "rating").getD (JVal.str "?"), idx, arrow⟩
  | _ => none

/-- The Compact band loop. -/
def compactRows (band_data : JVal) : List String → Option (List CompactPart)
  | [] => some []
  | b :: rest =>
    match pyContains band_data b with
    | none => none
    | some false => compactRows band_data rest
    | some true =>
      match pyGetItem band_data b with
      | none => none
      | some d =>
        match compactRow b d with
        | none => none
        | some part =>
          match compactRows band_data rest with
          | none => none
          | some tail => some (part :: tail)

/-- format_compact from dx.py: an error document short-circuits to the
single error line, otherwise the joined band parts. -/
def format_compact (data : Fields) (bands : List String) : Option CompactOut :=
  match fieldsLookup data "error" with
  | some e => some (CompactOut.errorLine e)
  | none =>
    match compactRows ((fieldsLookup data "bands").getD (JVal.obj [])) bands with
    | none => none
    | some ps => some (CompactOut.parts ps)

/-- The field list of the bands mapping of a document: the object value of
the bands key, or empty when the key is absent. -/
def bandsOf (data : Fields) : Fields :=
  match fieldsLookup data "bands" with
  | some (JVal.obj fs) => fs
  | _ => []

/-- Wellformedness of the bands field for format_json: absent or a dict
(the spec document model; any other value makes the Python comprehension
raise). -/
def bandsFieldDict (data : Fields) : Bool :=
  match fieldsLookup data "bands" with
  | none => true
  | some (JVal.obj _) => true
  | some _ => false

/-- Every value of a bands mapping is itself a dict (a BandReading in the
spec document model). -/
def bandsAllObj (fs : Fields) : Bool :=
  fs.all fun kv =>
    match kv.2 with
    | JVal.obj _ => true
    | _ => false

/-- Wellformedness of the bands field for check_alert: absent, or a dict
all of whose values are dicts. -/
def bandsFieldObjs (data : Fields) : Bool :=
  match fieldsLookup data "bands" with
  | none => true
  | some (JVal.obj fs) => bandsAllObj fs
  | some _ => false

/-- C1 counterexample: requesting bands as `40m 10m` hands the renderers
the list in user order, not the canonical order `10m,40m` that the claim
requires. -/
theorem c1_user_order_counterexample :
    selectBands ["40m", "10m"] = some ["40m", "10m"] ∧
    selectBands ["40m", "10m"] ≠ some ["10m", "40m"] := by
  decide

/-- C1 (amended): for every nonempty user-supplied band list the selected
list is exactly the filter of the user list to canonical members: a
sublist of the user list (user-supplied order preserved, not canonical
order), whose members are exactly the user-requested bands in the
canonical set, and which keeps each canonical band with the multiplicity
it has in the user list while dropping non-canonical bands. -/
theorem c1_band_selection (args bs : List String) (hne : args ≠ [])
    (h : selectBands args = some bs) :
    bs = args.filter (fun b => decide (b ∈ ALL_BANDS)) ∧
    List.Sublist bs args ∧
    (∀ b, b ∈ bs ↔ b ∈ args ∧ b ∈ ALL_BANDS) ∧
    (∀ b, bs.count b = if b ∈ ALL_BANDS then args.count b else 0) := by
  simp only [selectBands, if_neg hne] at h
  by_cases h0 : args.filter (fun b => decide (b ∈ ALL_BANDS)) = []
  · rw [if_pos h0] at h
    exact absurd h (by simp)
  · rw [if_neg h0] at h
    injection h with h
    subst h
    refine ⟨rfl, List.filter_sublist args, fun b => by simp [List.mem_filter],
      fun b => ?_⟩
    by_cases hb : b ∈ ALL_BANDS
    · rw [if_pos hb]
      exact List.count_filter (by simp [hb])
    · rw [if_neg hb, List.count_eq_zero]
      simp [List.mem_filter, hb]

/-- C1 witness: the amended statement at the concrete request
`10m 80m 10m`, whose duplicate 10m is kept twice and whose non-canonical
80m is dropped. -/
theorem c1_band_selection_witness :
    (["10m", "80m", "10m"] : List String) ≠ [] ∧
    selectBands ["10m", "80m", "10m"] = some ["10m", "10m"] ∧
    ((["10m", "10m"] : List String)
        = (["10m", "80m", "10m"] : List String).filter (fun b => decide (b ∈ ALL_BANDS)) ∧
      List.Sublist ["10m", "10m"] ["10m", "80m", "10m"] ∧
      (∀ b, b ∈ (["10m", "10m"] : List String) ↔
        b ∈ (["10m", "80m", "10m"] : List String) ∧ b ∈ ALL_BANDS) ∧
      (∀ b, (["10m", "10m"] : List String).count b =
        if b ∈ ALL_BANDS then (["10m", "80m", "10m"] : List String).count b else 0)) :=
  ⟨by decide, by decide,
    c1_band_selection ["10m", "80m", "10m"] ["10m", "10m"] (by decide) (by decide)⟩

/-- C3: when the requested band list is the full canonical list, the JSON
renderer returns the original document value unchanged (serialization
followed by parsing is modelled as the identity at the JSON value level,
so the output deep-equals the input document). -/
theorem c3_format_json_roundtrip (data : Fields) :
    format_json data ALL_BANDS = some (JVal.obj data) := by
  simp [format_json]

/-- C5: on a document carrying an error field with string message m, both
the Standard and the Compact renderer return exactly the single line with
the message, every other field ignored. -/
theorem c5_error_short_circuit (data : Fields) (bands : List String) (a : Bool)
    (m : String) (h : fieldsLookup data "error" = some (JVal.str m)) :
    format_standard data bands a = some [StdLine.errorLine (JVal.str m)] ∧
    format_compact data bands = some (CompactOut.errorLine (JVal.str m)) := by
  constructor
  · rw [format_standard, h]
  · rw [format_compact, h]

/-- C5 witness: the error document of the spec example, under all bands. -/
theorem c5_error_short_circuit_witness :
    fieldsLookup [("error", JVal.str "service unavailable")] "error"
        = some (JVal.str "service unavailable") ∧
    (format_standard [("error", JVal.str "service unavailable")] ALL_BANDS false
        = some [StdLine.errorLine (JVal.str "service unavailable")] ∧
      format_compact [("error", JVal.str "service unavailable")] ALL_BANDS
        = some (CompactOut.errorLine (JVal.str "service unavailable"))) :=
  ⟨rfl, c5_error_short_circuit [("error", JVal.str "service unavailable")]
    ALL_BANDS false "service unavailable" rfl⟩

/-- C8: a threshold outside the five scale names makes check_alert return
false for every document and band list, with no exception. -/
theorem c8_invalid_threshold (data : Fields) (bands : List String) (t : String)
    (h : t ∉ rating_order) :
    check_alert data bands t = some false := by
  simp [check_alert, h]

/-- C8 witness: the invalid threshold of the spec example. -/
theorem c8_invalid_threshold_witness :
    "NotARating" ∉ rating_order ∧
    check_alert [] ALL_BANDS "NotARating" = some false :=
  ⟨by decide, c8_invalid_threshold [] ALL_BANDS "NotARating" (by decide)⟩

/- Lookup after a dict update: the updated key reads the new value, every
other key is unaffected. -/
theorem fieldsLookup_insertField (acc : Fields) (k : String) (v : JVal) (k' : String) :
    fieldsLookup (insertField acc k v) k' =
      if k = k' then some v else fieldsLookup acc k' := by
  induction acc with
  | nil => by_cases h : k = k' <;> simp [insertField, fieldsLookup, h]
  | cons kv rest ih =>
    obtain ⟨a, w⟩ := kv
    by_cases hak : a = k
    · subst hak
      by_cases h : a = k' <;> simp [insertField, fieldsLookup, h]
    · by_cases h : a = k'
      · subst h
        have hk : ¬k = a := fun hkk => hak hkk.symm
        simp [insertField, fieldsLookup, hak, ih, hk]
      · simp [insertField, fieldsLookup, hak, h, ih]

/- The format_json band comprehension over a dict bands value always
succeeds, and the result maps exactly the requested-and-present keys to
their original values (on top of the accumulator). -/
theorem jsonBandsLoop_obj (fs : Fields) (bl : List String) :
    ∀ acc : Fields, ∃ res, jsonBandsLoop (JVal.obj fs) acc bl = some res ∧
      ∀ k, fieldsLookup res k =
        if k ∈ bl ∧ (fieldsLookup fs k).isSome then fieldsLookup fs k
        else fieldsLookup acc k := by
  induction bl with
  | nil =>
    intro acc
    exact ⟨acc, rfl, fun k => by simp [jsonBandsLoop]⟩
  | cons b rest ih =>
    intro acc
    by_cases hb : (fieldsLookup fs b).isSome
    · obtain ⟨v, hv⟩ := Option.isSome_iff_exists.mp hb
      obtain ⟨res, hres, hlook⟩ := ih (insertField acc b v)
      refine ⟨res, ?_, ?_⟩
      · simp [jsonBandsLoop, pyContains, fieldsContains, hb, pyGet, hv, hres]
      · intro k
        rw [hlook k, fieldsLookup_insertField]
        by_cases hk : k = b
        · subst hk
          by_cases hkr : k ∈ rest <;> simp [hkr, hb, hv]
        · have : (k ∈ b :: rest) ↔ k ∈ rest := by
            simp [List.mem_cons, hk]
          simp only [this]
          by_cases hkr : k ∈ rest ∧ (fieldsLookup fs k).isSome
          · simp [hkr]
          · simp only [if_neg hkr]
            rw [if_neg (fun hbk : b = k => hk hbk.symm)]
    · obtain ⟨res, hres, hlook⟩ := ih acc
      refine ⟨res, ?_, ?_⟩
      · have hb' : fieldsContains fs b = false := by
          simp [fieldsContains, Option.isSome] at hb ⊢
          cases h : fieldsLookup fs b with
          | none => rfl
          | some v => rw [h] at hb; simp at hb
        simp [jsonBandsLoop, pyContains, hb', hres]
      · intro k
        rw [hlook k]
        by_cases hk : k = b
        · subst hk
          simp [hb]
        · have : (k ∈ b :: rest) ↔ k ∈ rest := by
            simp [List.mem_cons, hk]
          simp [this]

/- Under a wellformed bands field, the defaulted bands value is the dict
bandsOf data. -/
theorem bandsFieldDict_getD (data : Fields) (hwf : bandsFieldDict data = true) :
    (fieldsLookup data "bands").getD (JVal.obj []) = JVal.obj (bandsOf data) := by
  unfold bandsFieldDict at hwf
  unfold bandsOf
  cases h : fieldsLookup data "bands" with
  | none => simp
  | some v =>
    rw [h] at hwf
    cases v <;> simp_all

/-- C10: whenever the requested list differs from the canonical list, the
reduced object always carries the keys updated and solar, bound to the
original values or to null when the document lacks them, so the reduced
output can contain keys the input document did not have. -/
theorem c10_reduced_keys (data : Fields) (bands : List String)
    (hne : bands ≠ ALL_BANDS) (hwf : bandsFieldDict data = true) :
    ∃ out : Fields, format_json data bands = some (JVal.obj out) ∧
      fieldsLookup out "updated" = some ((fieldsLookup data "updated").getD JVal.null) ∧
      fieldsLookup out "solar" = some ((fieldsLookup data "solar").getD JVal.null) := by
  obtain ⟨fb, hfb, -⟩ := jsonBandsLoop_obj (bandsOf data) bands []
  by_cases hst : fieldsContains data "storm"
  · refine ⟨[("updated", (fieldsLookup data "updated").getD JVal.null),
      ("bands", JVal.obj fb),
      ("solar", (fieldsLookup data "solar").getD JVal.null),
      ("storm", (fieldsLookup data "storm").getD JVal.null)], ?_, rfl, rfl⟩
    simp [format_json, if_neg hne, bandsFieldDict_getD data hwf, hfb, hst]
  · refine ⟨[("updated", (fieldsLookup data "updated").getD JVal.null),
      ("bands", JVal.obj fb),
      ("solar", (fieldsLookup data "solar").getD JVal.null)], ?_, rfl, rfl⟩
    simp [format_json, if_neg hne, bandsFieldDict_getD data hwf, hfb, hst]

/-- C10 witness: the empty document with the single requested band 10m
gains updated and solar keys bound to null. -/
theorem c10_reduced_keys_witness :
    (["10m"] : List String) ≠ ALL_BANDS ∧ bandsFieldDict [] = true ∧
    ∃ out : Fields, format_json [] ["10m"] = some (JVal.obj out) ∧
      fieldsLookup out "updated" = some ((fieldsLookup [] "updated").getD JVal.null) ∧
      fieldsLookup out "solar" = some ((fieldsLookup [] "solar").getD JVal.null) :=
  ⟨by decide, rfl, c10_reduced_keys [] ["10m"] (by decide) rfl⟩

/-- C4: for a requested list forming a strict subset of the canonical set,
the reduced object binds `bands` to exactly the requested bands present in
the input bands mapping, with their original readings, and carries a storm
key exactly when the input document does, whatever the storm value is. -/
theorem c4_format_json_reduction (data : Fields) (bands : List String)
    (hsub : ∀ b ∈ bands, b ∈ ALL_BANDS)
    (hstrict : ∃ a ∈ ALL_BANDS, a ∉ bands)
    (hwf : bandsFieldDict data = true) :
    ∃ out fb : Fields, format_json data bands = some (JVal.obj out) ∧
      fieldsLookup out "bands" = some (JVal.obj fb) ∧
      (∀ k, fieldsLookup fb k =
        if k ∈ bands then fieldsLookup (bandsOf data) k else none) ∧
      fieldsContains out "storm" = fieldsContains data "storm" := by
  obtain ⟨a0, ha0, ha0n⟩ := hstrict
  have hne : bands ≠ ALL_BANDS := fun h => ha0n (h ▸ ha0)
  obtain ⟨fb, hfb, hlook⟩ := jsonBandsLoop_obj (bandsOf data) bands []
  have hkeys : ∀ k, fieldsLookup fb k =
      if k ∈ bands then fieldsLookup (bandsOf data) k else none := by
    intro k
    rw [hlook k]
    by_cases hk : k ∈ bands
    · by_cases hs : (fieldsLookup (bandsOf data) k).isSome
      · simp [hk, hs]
      · rw [Option.not_isSome_iff_eq_none] at hs
        simp [hk, hs, fieldsLookup]
    · simp [hk, fieldsLookup]
  by_cases hst : fieldsContains data "storm"
  · refine ⟨[("updated", (fieldsLookup data "updated").getD JVal.null),
      ("bands", JVal.obj fb),
      ("solar", (fieldsLookup data "solar").getD JVal.null),
      ("storm", (fieldsLookup data "storm").getD JVal.null)], fb, ?_, rfl, hkeys, ?_⟩
    · simp [format_json, if_neg hne, bandsFieldDict_getD data hwf, hfb, hst]
    · rw [hst]
      simp [fieldsContains, fieldsLookup]
  · refine ⟨[("updated", (fieldsLookup data "updated").getD JVal.null),
      ("bands", JVal.obj fb),
      ("solar", (fieldsLookup data "solar").getD JVal.null)], fb, ?_, rfl, hkeys, ?_⟩
    · simp [format_json, if_neg hne, bandsFieldDict_getD data hwf, hfb, hst]
    · rw [Bool.eq_false_iff.mpr hst]
      rfl

/-- C4 witness: requesting `10m 15m` against a document whose bands
mapping holds 10m and a non-canonical 80m, with a null storm key. -/
theorem c4_format_json_reduction_witness :
    (∀ b ∈ (["10m", "15m"] : List String), b ∈ ALL_BANDS) ∧
    (∃ a ∈ ALL_BANDS, a ∉ (["10m", "15m"] : List String)) ∧
    bandsFieldDict [("bands", JVal.obj [("10m", JVal.obj []), ("80m", JVal.null)]),
      ("storm", JVal.null)] = true ∧
    ∃ out fb : Fields,
      format_json [("bands", JVal.obj [("10m", JVal.obj []), ("80m", JVal.null)]),
        ("storm", JVal.null)] ["10m", "15m"] = some (JVal.obj out) ∧
      fieldsLookup out "bands" = some (JVal.obj fb) ∧
      (∀ k, fieldsLookup fb k =
        if k ∈ (["10m", "15m"] : List String) then
          fieldsLookup (bandsOf [("bands", JVal.obj [("10m", JVal.obj []), ("80m", JVal.null)]),
            ("storm", JVal.null)]) k
        else none) ∧
      fieldsContains out "storm" =
        fieldsContains [("bands", JVal.obj [("10m", JVal.obj []), ("80m", JVal.null)]),
          ("storm", JVal.null)] "storm" :=
  ⟨by decide, by decide, rfl,
    c4_format_json_reduction _ ["10m", "15m"] (by decide) (by decide) rfl⟩

/- In a bands mapping all of whose values are dicts, every lookup hit is a
dict. -/
theorem bandsAllObj_lookup (fs : Fields) (hfs : bandsAllObj fs = true)
    (b : String) (v : JVal) (h : fieldsLookup fs b = some v) :
    ∃ gs : Fields, v = JVal.obj gs := by
  induction fs with
  | nil => simp [fieldsLookup] at h
  | cons kv rest ih =>
    obtain ⟨a, w⟩ := kv
    rw [bandsAllObj, List.all_cons] at hfs
    obtain ⟨hw, hrest⟩ := Bool.and_eq_true_iff.mp hfs
    rw [fieldsLookup] at h
    by_cases hab : a = b
    · rw [if_pos hab] at h
      injection h with h
      subst h
      cases w with
      | obj gs => exact ⟨gs, rfl⟩
      | null => simp at hw
      | bool b => simp at hw
      | num q => simp at hw
      | str s => simp at hw
    · rw [if_neg hab] at h
      exact ih hrest h

/- The check_alert band loop over a dict of dict readings always succeeds
and returns true exactly when some requested-and-present band carries a
rating whose scale position reaches the threshold level, with an absent
rating defaulting to VeryPoor and an unknown rating never matching. -/
theorem alertLoop_spec (fs : Fields) (hfs : bandsAllObj fs = true) (lvl : Nat)
    (bl : List String) :
    ∃ r, alertLoop (JVal.obj fs) lvl bl = some r ∧
      (r = true ↔ ∃ b ∈ bl, ∃ gs : Fields, fieldsLookup fs b = some (JVal.obj gs) ∧
        ∃ i, ratingIndex ((fieldsLookup gs "rating").getD (JVal.str "VeryPoor")) = some i ∧
          lvl ≤ i) := by
  induction bl with
  | nil => exact ⟨false, rfl, by simp⟩
  | cons b rest ih =>
    obtain ⟨r, hr, hiff⟩ := ih
    cases hlb : fieldsLookup fs b with
    | none =>
      refine ⟨r, ?_, ?_⟩
      · simp [alertLoop, pyContains, fieldsContains, hlb, hr]
      · rw [hiff]
        constructor
        · rintro ⟨b', hb', gs, hgs, hi⟩
          exact ⟨b', List.mem_cons_of_mem b hb', gs, hgs, hi⟩
        · rintro ⟨b', hb', gs, hgs, hi⟩
          rcases List.mem_cons.mp hb' with h | h
          · subst h
            rw [hlb] at hgs
            cases hgs
          · exact ⟨b', h, gs, hgs, hi⟩
    | some v =>
      obtain ⟨gs, rfl⟩ := bandsAllObj_lookup fs hfs b v hlb
      cases hri : ratingIndex ((fieldsLookup gs "rating").getD (JVal.str "VeryPoor")) with
      | none =>
        refine ⟨r, ?_, ?_⟩
        · simp [alertLoop, pyContains, fieldsContains, hlb, pyGetItem, hri, hr]
        · rw [hiff]
          constructor
          · rintro ⟨b', hb', gs', hgs', hi⟩
            exact ⟨b', List.mem_cons_of_mem b hb', gs', hgs', hi⟩
          · rintro ⟨b', hb', gs', hgs', i, hri', hle'⟩
            rcases List.mem_cons.mp hb' with h | h
            · subst h
              rw [hlb] at hgs'
              injection hgs' with h2
              injection h2 with h2
              subst h2
              rw [hri] at hri'
              cases hri'
            · exact ⟨b', h, gs', hgs', i, hri', hle'⟩
      | some i =>
        by_cases hle : lvl ≤ i
        · refine ⟨true, ?_, ?_⟩
          · simp [alertLoop, pyContains, fieldsContains, hlb, pyGetItem, hri, hle]
          · simp only [true_iff]
            exact ⟨b, List.mem_cons_self b rest, gs, hlb, i, hri, hle⟩
        · refine ⟨r, ?_, ?_⟩
          · simp [alertLoop, pyContains, fieldsContains, hlb, pyGetItem, hri, hle, hr]
          · rw [hiff]
            constructor
            · rintro ⟨b', hb', gs', hgs', hi⟩
              exact ⟨b', List.mem_cons_of_mem b hb', gs', hgs', hi⟩
            · rintro ⟨b', hb', gs', hgs', i', hri', hle'⟩
              rcases List.mem_cons.mp hb' with h | h
              · subst h
                rw [hlb] at hgs'
                injection hgs' with h2
                injection h2 with h2
                subst h2
                rw [hri] at hri'
                injection hri' with h3
                subst h3
                exact absurd hle' hle
              · exact ⟨b', h, gs', hgs', i', hri', hle'⟩

/-- C2: for a document whose bands mapping holds dict readings and any of
the five scale names R, check_alert returns true exactly when some
requested band present in the mapping carries a rating whose scale
position reaches the position of R, an absent rating defaulting to
VeryPoor and an unknown rating never matching; it returns false (not an
exception) otherwise, in particular when no requested band is present. -/
theorem c2_check_alert_spec (data : Fields) (bands : List String) (R : String)
    (hR : R ∈ rating_order) (hwf : bandsFieldObjs data = true) :
    ∃ r, check_alert data bands R = some r ∧
      (r = true ↔ ∃ b ∈ bands, ∃ fs gs : Fields,
        fieldsLookup data "bands" = some (JVal.obj fs) ∧
        fieldsLookup fs b = some (JVal.obj gs) ∧
        ∃ i, ratingIndex ((fieldsLookup gs "rating").getD (JVal.str "VeryPoor")) = some i ∧
          rating_order.indexOf R ≤ i) := by
  unfold check_alert
  rw [if_pos hR]
  unfold bandsFieldObjs at hwf
  cases hlb : fieldsLookup data "bands" with
  | none =>
    obtain ⟨r, hr, hiff⟩ := alertLoop_spec [] rfl (rating_order.indexOf R) bands
    refine ⟨r, by simp [hlb, hr], ?_⟩
    rw [hiff]
    constructor
    · rintro ⟨b, hb, gs, hgs, hi⟩
      simp [fieldsLookup] at hgs
    · rintro ⟨b, hb, fs, gs, hfs, hgs, hi⟩
      simp at hfs
  | some v =>
    rw [hlb] at hwf
    cases v with
    | obj fs =>
      obtain ⟨r, hr, hiff⟩ := alertLoop_spec fs hwf (rating_order.indexOf R) bands
      refine ⟨r, by simp [hlb, hr], ?_⟩
      rw [hiff]
      constructor
      · rintro ⟨b, hb, gs, hgs, hi⟩
        exact ⟨b, hb, fs, gs, rfl, hgs, hi⟩
      · rintro ⟨b, hb, fs', gs, hfs', hgs, hi⟩
        injection hfs' with h
        injection h with h
        subst h
        exact ⟨b, hb, gs, hgs, hi⟩
    | null => simp at hwf
    | bool b => simp at hwf
    | num q => simp at hwf
    | str s => simp at hwf

/-- C2 witness: one band with rating Good against threshold Fair. -/
theorem c2_check_alert_spec_witness :
    "Fair" ∈ rating_order ∧
    bandsFieldObjs [("bands", JVal.obj [("10m", JVal.obj [("rating", JVal.str "Good")])])] = true ∧
    ∃ r, check_alert [("bands", JVal.obj [("10m", JVal.obj [("rating", JVal.str "Good")])])]
        ["10m"] "Fair" = some r ∧
      (r = true ↔ ∃ b ∈ (["10m"] : List String), ∃ fs gs : Fields,
        fieldsLookup [("bands", JVal.obj [("10m", JVal.obj [("rating", JVal.str "Good")])])]
          "bands" = some (JVal.obj fs) ∧
        fieldsLookup fs b = some (JVal.obj gs) ∧
        ∃ i, ratingIndex ((fieldsLookup gs "rating").getD (JVal.str "VeryPoor")) = some i ∧
          rating_order.indexOf "Fair" ≤ i) :=
  ⟨by decide, rfl,
    c2_check_alert_spec [("bands", JVal.obj [("10m", JVal.obj [("rating", JVal.str "Good")])])]
      ["10m"] "Fair" (by decide) rfl⟩

/- Membership in the assembled Standard report, split by segment. -/
theorem mem_assembled (x : StdLine) (upd rows solar storm : List StdLine) (src : StdLine) :
    x ∈ assembled upd rows solar storm src ↔
      x ∈ upd ∨ x ∈ rows ∨ x ∈ solar ∨ x ∈ storm ∨ x = src ∨
      x = StdLine.blank ∨ x = StdLine.banner ∨ x = StdLine.title ∨
      x = StdLine.tableHeader ∨ x = StdLine.tableRule := by
  simp only [assembled, List.mem_append, List.mem_cons, List.mem_singleton,
    List.not_mem_nil, or_false]
  tauto

/- Inversion of a successful Standard rendering of an error-free document:
every block succeeded and the output is their assembly. -/
theorem format_standard_inv (data : Fields) (bands : List String) (a : Bool)
    (ls : List StdLine) (herr : fieldsLookup data "error" = none)
    (h : format_standard data bands a = some ls) :
    ∃ rows solar storm src,
      bandRows ((fieldsLookup data "bands").getD (JVal.obj []))
        (if a then SYMBOLS_ASCII else SYMBOLS) bands = some rows ∧
      solarSeg ((fieldsLookup data "solar").getD (JVal.obj [])) = some solar ∧
      stormSeg (fieldsLookup data "storm") = some storm ∧
      sourceSeg ((fieldsLookup data "source").getD (JVal.str "wspr.hb9vqq.ch")) = some src ∧
      ls = assembled (updSeg (fieldsLookup data "updated")) rows solar storm src := by
  rw [format_standard, herr] at h
  cases h1 : bandRows ((fieldsLookup data "bands").getD (JVal.obj []))
      (if a then SYMBOLS_ASCII else SYMBOLS) bands with
  | none => rw [h1] at h; cases h
  | some rows =>
    rw [h1] at h
    cases h2 : solarSeg ((fieldsLookup data "solar").getD (JVal.obj [])) with
    | none => rw [h2] at h; cases h
    | some solar =>
      rw [h2] at h
      cases h3 : stormSeg (fieldsLookup data "storm") with
      | none => rw [h3] at h; cases h
      | some storm =>
        rw [h3] at h
        cases h4 : sourceSeg ((fieldsLookup data "source").getD (JVal.str "wspr.hb9vqq.ch")) with
        | none => rw [h4] at h; cases h
        | some src =>
          rw [h4] at h
          injection h with h
          exact ⟨rows, solar, storm, src, rfl, rfl, rfl, rfl, h.symm⟩

/- Every line of a successful band table is a band row. -/
theorem stdBandRow_shape (sym : List (String × String)) (b : String) (d : JVal)
    (l : StdLine) (h : stdBandRow sym b d = some l) :
    ∃ i s rv ar f fr, l = StdLine.bandRow b i s rv ar f fr := by
  cases d with
  | obj fs =>
    simp only [stdBandRow, Option.bind_eq_some, Option.some.injEq] at h
    obtain ⟨i, hi, s, hs, f, hf, ar, har, hl⟩ := h
    exact ⟨_, _, _, _, _, _, hl.symm⟩
  | null => simp [stdBandRow] at h
  | bool b2 => simp [stdBandRow] at h
  | num q => simp [stdBandRow] at h
  | str s => simp [stdBandRow] at h

/- Every line of the band loop output is a band row. -/
theorem bandRows_shape (bd : JVal) (sym : List (String × String)) (bl : List String)
    (rows : List StdLine) (h : bandRows bd sym bl = some rows) :
    ∀ x ∈ rows, ∃ b i s rv ar f fr, x = StdLine.bandRow b i s rv ar f fr := by
  induction bl generalizing rows with
  | nil =>
    simp only [bandRows, Option.some.injEq] at h
    subst h
    simp
  | cons b rest ih =>
    rw [bandRows] at h
    cases hc : pyContains bd b with
    | none => rw [hc] at h; cases h
    | some c =>
      simp only [hc] at h
      cases c with
      | false => exact ih rows h
      | true =>
        cases hg : pyGetItem bd b with
        | none => simp only [hg] at h; cases h
        | some d =>
          simp only [hg] at h
          cases hrw : stdBandRow sym b d with
          | none => simp only [hrw] at h; cases h
          | some line =>
            simp only [hrw] at h
            cases ht : bandRows bd sym rest with
            | none => simp only [ht] at h; cases h
            | some tail =>
              simp only [ht, Option.some.injEq] at h
              subst h
              intro x hx
              rcases List.mem_cons.mp hx with hx | hx
              · subst hx
                exact ⟨b, stdBandRow_shape sym b d x hrw⟩
              · exact ih tail ht x hx

/- Every line of the timestamp block is a timestamp line. -/
theorem updSeg_shape (o : Option JVal) :
    ∀ x ∈ updSeg o, ∃ ts, x = StdLine.updatedLine ts := by
  intro x hx
  cases o with
  | none => simp [updSeg] at hx
  | some v =>
    cases v with
    | str u =>
      simp only [updSeg] at hx
      cases hp : fromisoformat (replaceZ u) with
      | none => rw [hp] at hx; simp at hx
      | some ts =>
        rw [hp] at hx
        simp at hx
        exact ⟨ts, hx⟩
    | null => simp [updSeg] at hx
    | bool b => simp [updSeg] at hx
    | num q => simp [updSeg] at hx
    | obj fs => simp [updSeg] at hx

/- Every line of the solar block is a solar line. -/
theorem solarSeg_shape (v : JVal) (ns : List StdLine) (h : solarSeg v = some ns) :
    ∀ x ∈ ns, ∃ s k, x = StdLine.solarLine s k := by
  intro x hx
  cases v with
  | obj fs =>
    simp only [solarSeg] at h
    by_cases ht : truthy ((fieldsLookup fs "sfi").getD JVal.null)
        && truthy ((fieldsLookup fs "kp").getD JVal.null)
    · rw [if_pos ht] at h
      cases ha : asNum ((fieldsLookup fs "sfi").getD JVal.null) with
      | none => rw [ha] at h; cases h
      | some s =>
        rw [ha] at h
        cases hb : asNum ((fieldsLookup fs "kp").getD JVal.null) with
        | none => rw [hb] at h; cases h
        | some k =>
          rw [hb] at h
          injection h with h
          subst h
          simp at hx
          exact ⟨s, k, hx⟩
    · rw [if_neg ht] at h
      injection h with h
      subst h
      simp at hx
  | null => cases h
  | bool b => cases h
  | num q => cases h
  | str s => cases h

/- Every line of the storm lines of a numeric probability is a storm
line carrying that probability. -/
theorem stormProbLines_shape (prob : ℚ) (kpv : JVal) (ns : List StdLine)
    (h : stormProbLines prob kpv = some ns) :
    ∀ x ∈ ns, x = StdLine.stormWarn prob ((asNum kpv).getD 0) ∨
      x = StdLine.stormInfo prob ((asNum kpv).getD 0) := by
  intro x hx
  rw [stormProbLines] at h
  by_cases h50 : (50 : ℚ) ≤ prob
  · rw [if_pos h50] at h
    cases hk : asNum kpv with
    | none => rw [hk] at h; cases h
    | some k =>
      rw [hk] at h
      injection h with h
      subst h
      simp at hx
      simp [hx, hk]
  · rw [if_neg h50] at h
    by_cases h30 : (30 : ℚ) ≤ prob
    · rw [if_pos h30] at h
      cases hk : asNum kpv with
      | none => rw [hk] at h; cases h
      | some k =>
        rw [hk] at h
        injection h with h
        subst h
        simp at hx
        simp [hx, hk]
    · rw [if_neg h30] at h
      injection h with h
      subst h
      simp at hx

/- Every line of the storm block is a storm line. -/
theorem stormSeg_shape (o : Option JVal) (ns : List StdLine) (h : stormSeg o = some ns) :
    ∀ x ∈ ns, (∃ p k, x = StdLine.stormWarn p k) ∨ (∃ p k, x = StdLine.stormInfo p k) := by
  intro x hx
  cases o with
  | none =>
    injection h with h
    subst h
    simp at hx
  | some v =>
    cases v with
    | obj fs =>
      simp only [stormSeg] at h
      by_cases htv : truthy (JVal.obj fs)
      · rw [if_pos htv] at h
        rw [stormLines] at h
        cases hp : fieldsLookup fs "probability" with
        | none =>
          rw [hp] at h
          injection h with h
          subst h
          simp at hx
        | some pv =>
          rw [hp] at h
          cases pv with
          | null =>
            injection h with h
            subst h
            simp at hx
          | num p =>
            have := stormProbLines_shape p ((fieldsLookup fs "predicted_kp").getD (JVal.num 0)) ns h x hx
            rcases this with h1 | h1
            · exact Or.inl ⟨_, _, h1⟩
            · exact Or.inr ⟨_, _, h1⟩
          | bool b =>
            have := stormProbLines_shape (if b then 1 else 0)
              ((fieldsLookup fs "predicted_kp").getD (JVal.num 0)) ns h x hx
            rcases this with h1 | h1
            · exact Or.inl ⟨_, _, h1⟩
            · exact Or.inr ⟨_, _, h1⟩
          | str s => cases h
          | obj gs => cases h
      · rw [if_neg htv] at h
        injection h with h
        subst h
        simp at hx
    | null =>
      injection h with h
      subst h
      simp at hx
    | bool b =>
      simp only [stormSeg] at h
      by_cases hb : truthy (JVal.bool b)
      · rw [if_pos hb] at h; cases h
      · rw [if_neg hb] at h
        injection h with h
        subst h
        simp at hx
    | num q =>
      simp only [stormSeg] at h
      by_cases hb : truthy (JVal.num q)
      · rw [if_pos hb] at h; cases h
      · rw [if_neg hb] at h
        injection h with h
        subst h
        simp at hx
    | str s2 =>
      simp only [stormSeg] at h
      by_cases hb : truthy (JVal.str s2)
      · rw [if_pos hb] at h; cases h
      · rw [if_neg hb] at h
        injection h with h
        subst h
        simp at hx

/- The footer is always a source line. -/
theorem sourceSeg_shape (v : JVal) (l : StdLine) (h : sourceSeg v = some l) :
    ∃ s, l = StdLine.sourceLine s := by
  cases v with
  | str s =>
    injection h with h
    exact ⟨stripProto s, h.symm⟩
  | null => cases h
  | bool b => cases h
  | num q => cases h
  | obj fs => cases h

/- The solar block holds a solar line exactly when the solar value is a
dict with truthy sfi and kp. -/
theorem solarSeg_mem (v : JVal) (ns : List StdLine) (h : solarSeg v = some ns) :
    (∃ s k, StdLine.solarLine s k ∈ ns) ↔
      ∃ fs : Fields, v = JVal.obj fs ∧
        truthy ((fieldsLookup fs "sfi").getD JVal.null) = true ∧
        truthy ((fieldsLookup fs "kp").getD JVal.null) = true := by
  cases v with
  | obj fs =>
    simp only [solarSeg] at h
    by_cases ht : truthy ((fieldsLookup fs "sfi").getD JVal.null)
        && truthy ((fieldsLookup fs "kp").getD JVal.null)
    · rw [if_pos ht] at h
      obtain ⟨h1, h2⟩ := Bool.and_eq_true_iff.mp ht
      cases ha : asNum ((fieldsLookup fs "sfi").getD JVal.null) with
      | none => rw [ha] at h; cases h
      | some s0 =>
        rw [ha] at h
        cases hb : asNum ((fieldsLookup fs "kp").getD JVal.null) with
        | none => rw [hb] at h; cases h
        | some k0 =>
          rw [hb] at h
          injection h with h
          subst h
          constructor
          · intro _
            exact ⟨fs, rfl, h1, h2⟩
          · intro _
            exact ⟨s0, k0, by simp⟩
    · rw [if_neg ht] at h
      injection h with h
      subst h
      constructor
      · rintro ⟨s, k, hm⟩
        simp at hm
      · rintro ⟨fs2, hfs2, h1, h2⟩
        injection hfs2 with hfs2
        subst hfs2
        rw [h1, h2] at ht
        simp at ht
  | null => cases h
  | bool b => cases h
  | num q => cases h
  | str s => cases h

/- Classification of a member of the assembled report, given the shape of
each block. -/
theorem assembled_cases (upd rows solar storm : List StdLine) (src : StdLine) (x : StdLine)
    (hup : ∀ y ∈ upd, ∃ ts, y = StdLine.updatedLine ts)
    (hrs : ∀ y ∈ rows, ∃ b i s rv ar f fr, y = StdLine.bandRow b i s rv ar f fr)
    (hso : ∀ y ∈ solar, ∃ s k, y = StdLine.solarLine s k)
    (hst : ∀ y ∈ storm, (∃ p k, y = StdLine.stormWarn p k) ∨ (∃ p k, y = StdLine.stormInfo p k))
    (hsr : ∃ s, src = StdLine.sourceLine s)
    (hx : x ∈ assembled upd rows solar storm src) :
    (x ∈ upd ∧ ∃ ts, x = StdLine.updatedLine ts) ∨
    (x ∈ rows ∧ ∃ b i s rv ar f fr, x = StdLine.bandRow b i s rv ar f fr) ∨
    (x ∈ solar ∧ ∃ s k, x = StdLine.solarLine s k) ∨
    (x ∈ storm ∧ ((∃ p k, x = StdLine.stormWarn p k) ∨ (∃ p k, x = StdLine.stormInfo p k))) ∨
    (∃ s, x = StdLine.sourceLine s) ∨
    x = StdLine.blank ∨ x = StdLine.banner ∨ x = StdLine.title ∨
    x = StdLine.tableHeader ∨ x = StdLine.tableRule := by
  rw [mem_assembled] at hx
  obtain ⟨s, hs⟩ := hsr
  rcases hx with h | h | h | h | h | h | h | h | h | h
  · exact Or.inl ⟨h, hup _ h⟩
  · exact Or.inr (Or.inl ⟨h, hrs _ h⟩)
  · exact Or.inr (Or.inr (Or.inl ⟨h, hso _ h⟩))
  · exact Or.inr (Or.inr (Or.inr (Or.inl ⟨h, hst _ h⟩)))
  · exact Or.inr (Or.inr (Or.inr (Or.inr (Or.inl ⟨s, h.trans hs⟩))))
  · tauto
  · tauto
  · tauto
  · tauto
  · tauto

/-- C6 counterexample: a document whose solar record carries sfi and kp
both present, with sfi equal to 0, renders with no solar line although the
claim requires one whenever both keys are present. -/
theorem c6_solar_presence_counterexample :
    fieldsLookup [("solar", JVal.obj [("sfi", JVal.num 0), ("kp", JVal.num 3)])] "error"
        = none ∧
    fieldsContains [("sfi", JVal.num 0), ("kp", JVal.num 3)] "sfi" = true ∧
    fieldsContains [("sfi", JVal.num 0), ("kp", JVal.num 3)] "kp" = true ∧
    format_standard [("solar", JVal.obj [("sfi", JVal.num 0), ("kp", JVal.num 3)])]
        ALL_BANDS false
      = some [StdLine.blank, StdLine.banner, StdLine.title, StdLine.banner, StdLine.blank,
          StdLine.tableHeader, StdLine.tableRule, StdLine.blank, StdLine.banner,
          StdLine.sourceLine "wspr.hb9vqq.ch", StdLine.blank] ∧
    ¬ ∃ s k, StdLine.solarLine s k ∈
        [StdLine.blank, StdLine.banner, StdLine.title, StdLine.banner, StdLine.blank,
          StdLine.tableHeader, StdLine.tableRule, StdLine.blank, StdLine.banner,
          StdLine.sourceLine "wspr.hb9vqq.ch", StdLine.blank] := by
  refine ⟨rfl, rfl, rfl, rfl, ?_⟩
  rintro ⟨s, k, hm⟩
  simp at hm

/-- C6 (amended): on an error-free document that the Standard renderer
renders successfully, the solar line appears exactly when the solar value
is a record holding both sfi and kp with truthy values (so a present but
zero or null sfi or kp yields no line, not mere presence as claimed). -/
theorem c6_solar_line_truthy (data : Fields) (bands : List String) (a : Bool)
    (ls : List StdLine) (herr : fieldsLookup data "error" = none)
    (h : format_standard data bands a = some ls) :
    (∃ s k, StdLine.solarLine s k ∈ ls) ↔
      ∃ fs : Fields, (fieldsLookup data "solar").getD (JVal.obj []) = JVal.obj fs ∧
        truthy ((fieldsLookup fs "sfi").getD JVal.null) = true ∧
        truthy ((fieldsLookup fs "kp").getD JVal.null) = true := by
  obtain ⟨rows, solar, storm, src, hrows, hsolar, hstorm, hsrc, hls⟩ :=
    format_standard_inv data bands a ls herr h
  subst hls
  rw [← solarSeg_mem _ _ hsolar]
  constructor
  · rintro ⟨s, k, hm⟩
    rcases assembled_cases _ _ _ _ _ _ (updSeg_shape _)
        (bandRows_shape _ _ _ _ hrows) (solarSeg_shape _ _ hsolar)
        (stormSeg_shape _ _ hstorm) (sourceSeg_shape _ _ hsrc) hm with
      ⟨_, ts, hc⟩ | ⟨_, b, i, sy, rv, ar, f, fr, hc⟩ | ⟨hin, _⟩ |
      ⟨_, ⟨p, k2, hc⟩ | ⟨p, k2, hc⟩⟩ | ⟨s2, hc⟩ | hc | hc | hc | hc | hc
    · simp at hc
    · simp at hc
    · exact ⟨s, k, hin⟩
    · simp at hc
    · simp at hc
    · simp at hc
    · simp at hc
    · simp at hc
    · simp at hc
    · simp at hc
    · simp at hc
  · rintro ⟨s, k, hm⟩
    refine ⟨s, k, (mem_assembled _ _ _ _ _ _).mpr ?_⟩
    tauto

/-- C6 witness: the amended statement on a document with truthy sfi and
kp, which renders with the solar line present. -/
theorem c6_solar_line_truthy_witness :
    fieldsLookup [("solar", JVal.obj [("sfi", JVal.num 150), ("kp", JVal.num 3)])] "error"
        = none ∧
    format_standard [("solar", JVal.obj [("sfi", JVal.num 150), ("kp", JVal.num 3)])]
        ALL_BANDS false
      = some [StdLine.blank, StdLine.banner, StdLine.title, StdLine.banner, StdLine.blank,
          StdLine.tableHeader, StdLine.tableRule, StdLine.blank, StdLine.solarLine 150 3,
          StdLine.banner, StdLine.sourceLine "wspr.hb9vqq.ch", StdLine.blank] ∧
    ((∃ s k, StdLine.solarLine s k ∈
        [StdLine.blank, StdLine.banner, StdLine.title, StdLine.banner, StdLine.blank,
          StdLine.tableHeader, StdLine.tableRule, StdLine.blank, StdLine.solarLine 150 3,
          StdLine.banner, StdLine.sourceLine "wspr.hb9vqq.ch", StdLine.blank]) ↔
      ∃ fs : Fields,
        (fieldsLookup [("solar", JVal.obj [("sfi", JVal.num 150), ("kp", JVal.num 3)])]
          "solar").getD (JVal.obj []) = JVal.obj fs ∧
        truthy ((fieldsLookup fs "sfi").getD JVal.null) = true ∧
        truthy ((fieldsLookup fs "kp").getD JVal.null) = true) :=
  ⟨rfl, rfl,
    c6_solar_line_truthy [("solar", JVal.obj [("sfi", JVal.num 150), ("kp", JVal.num 3)])]
      ALL_BANDS false _ rfl rfl⟩

/- The storm lines of a numeric probability: the warning line appears
exactly at probability 50 and above, the plain line exactly between 30
inclusive and 50 exclusive, nothing below 30. -/
theorem stormProbLines_mem (prob : ℚ) (kpv : JVal) (ns : List StdLine)
    (h : stormProbLines prob kpv = some ns) :
    ((∃ k, StdLine.stormWarn prob k ∈ ns) ↔ 50 ≤ prob) ∧
    ((∃ k, StdLine.stormInfo prob k ∈ ns) ↔ (30 ≤ prob ∧ prob < 50)) ∧
    (prob < 30 → ns = []) := by
  rw [stormProbLines] at h
  by_cases h50 : (50 : ℚ) ≤ prob
  · rw [if_pos h50] at h
    cases hk : asNum kpv with
    | none => rw [hk] at h; cases h
    | some k =>
      rw [hk] at h
      injection h with h
      subst h
      refine ⟨iff_of_true ⟨k, by simp⟩ h50, ?_, ?_⟩
      · constructor
        · rintro ⟨k2, hk2⟩
          simp at hk2
        · rintro ⟨h30, hlt⟩
          exact absurd h50 (not_le.mpr hlt)
      · intro hlt
        exact absurd h50 (not_le.mpr (by linarith))
  · rw [if_neg h50] at h
    by_cases h30 : (30 : ℚ) ≤ prob
    · rw [if_pos h30] at h
      cases hk : asNum kpv with
      | none => rw [hk] at h; cases h
      | some k =>
        rw [hk] at h
        injection h with h
        subst h
        refine ⟨?_, iff_of_true ⟨k, by simp⟩ ⟨h30, not_le.mp h50⟩, ?_⟩
        · constructor
          · rintro ⟨k2, hk2⟩
            simp at hk2
          · intro hge
            exact absurd hge h50
        · intro hlt
          exact absurd h30 (not_le.mpr hlt)
    · rw [if_neg h30] at h
      injection h with h
      subst h
      refine ⟨?_, ?_, fun _ => rfl⟩
      · exact iff_of_false (by rintro ⟨k2, hk2⟩; simp at hk2) h50
      · exact iff_of_false (by rintro ⟨k2, hk2⟩; simp at hk2) (fun hp => h30 hp.1)

/-- C7: on an error-free document rendered successfully by the Standard
renderer, a storm record with numeric probability p yields the
warning-marked storm line exactly when p is at least 50 and the unmarked
storm line exactly when p lies in [30, 50), with no storm line at all
below 30; and when the storm probability is absent (or null) no storm
line is emitted. -/
theorem c7_storm_lines (data : Fields) (bands : List String) (a : Bool)
    (ls : List StdLine) (herr : fieldsLookup data "error" = none)
    (h : format_standard data bands a = some ls) :
    (∀ (sfs : Fields) (p : ℚ), fieldsLookup data "storm" = some (JVal.obj sfs) →
      fieldsLookup sfs "probability" = some (JVal.num p) →
      ((∃ k, StdLine.stormWarn p k ∈ ls) ↔ 50 ≤ p) ∧
      ((∃ k, StdLine.stormInfo p k ∈ ls) ↔ (30 ≤ p ∧ p < 50)) ∧
      (p < 30 → ∀ q k, ¬ StdLine.stormWarn q k ∈ ls ∧ ¬ StdLine.stormInfo q k ∈ ls)) ∧
    ((∀ sfs : Fields, fieldsLookup data "storm" = some (JVal.obj sfs) →
        fieldsLookup sfs "probability" = none ∨
        fieldsLookup sfs "probability" = some JVal.null) →
      ∀ q k, ¬ StdLine.stormWarn q k ∈ ls ∧ ¬ StdLine.stormInfo q k ∈ ls) := by
  obtain ⟨rows, solar, storm, src, hrows, hsolar, hstorm, hsrc, hls⟩ :=
    format_standard_inv data bands a ls herr h
  subst hls
  have hwmem : ∀ q k : ℚ,
      (StdLine.stormWarn q k ∈
          assembled (updSeg (fieldsLookup data "updated")) rows solar storm src ↔
        StdLine.stormWarn q k ∈ storm) ∧
      (StdLine.stormInfo q k ∈
          assembled (updSeg (fieldsLookup data "updated")) rows solar storm src ↔
        StdLine.stormInfo q k ∈ storm) := by
    intro q k
    constructor
    · constructor
      · intro hx
        rcases assembled_cases _ _ _ _ _ _ (updSeg_shape _)
            (bandRows_shape _ _ _ _ hrows) (solarSeg_shape _ _ hsolar)
            (stormSeg_shape _ _ hstorm) (sourceSeg_shape _ _ hsrc) hx with
          ⟨_, ts, hc⟩ | ⟨_, b2, i, sy, rv, ar, f, fr, hc⟩ | ⟨_, s2, k2, hc⟩ |
          ⟨hin, _⟩ | ⟨s2, hc⟩ | hc | hc | hc | hc | hc
        · simp at hc
        · simp at hc
        · simp at hc
        · exact hin
        · simp at hc
        · simp at hc
        · simp at hc
        · simp at hc
        · simp at hc
        · simp at hc
      · intro hm
        rw [mem_assembled]
        tauto
    · constructor
      · intro hx
        rcases assembled_cases _ _ _ _ _ _ (updSeg_shape _)
            (bandRows_shape _ _ _ _ hrows) (solarSeg_shape _ _ hsolar)
            (stormSeg_shape _ _ hstorm) (sourceSeg_shape _ _ hsrc) hx with
          ⟨_, ts, hc⟩ | ⟨_, b2, i, sy, rv, ar, f, fr, hc⟩ | ⟨_, s2, k2, hc⟩ |
          ⟨hin, _⟩ | ⟨s2, hc⟩ | hc | hc | hc | hc | hc
        · simp at hc
        · simp at hc
        · simp at hc
        · exact hin
        · simp at hc
        · simp at hc
        · simp at hc
        · simp at hc
        · simp at hc
        · simp at hc
      · intro hm
        rw [mem_assembled]
        tauto
  constructor
  · intro sfs p hstf hp
    rw [hstf] at hstorm
    have htr : truthy (JVal.obj sfs) = true := by
      cases sfs with
      | nil => simp [fieldsLookup] at hp
      | cons kv rest => rfl
    simp only [stormSeg, if_pos htr] at hstorm
    rw [stormLines, hp] at hstorm
    simp only [stormProbVal] at hstorm
    obtain ⟨hw, hi, h30e⟩ :=
      stormProbLines_mem p ((fieldsLookup sfs "predicted_kp").getD (JVal.num 0)) storm hstorm
    refine ⟨?_, ?_, ?_⟩
    · exact Iff.trans (exists_congr fun k => (hwmem p k).1) hw
    · exact Iff.trans (exists_congr fun k => (hwmem p k).2) hi
    · intro hlt q k
      have hse : storm = [] := h30e hlt
      constructor
      · intro hin
        rw [(hwmem q k).1, hse] at hin
        simp at hin
      · intro hin
        rw [(hwmem q k).2, hse] at hin
        simp at hin
  · intro habs q k
    have hse : storm = [] := by
      cases hstf : fieldsLookup data "storm" with
      | none =>
        rw [hstf] at hstorm
        injection hstorm with h2
        exact h2.symm
      | some v =>
        rw [hstf] at hstorm
        cases v with
        | obj sfs =>
          by_cases htr : truthy (JVal.obj sfs)
          · simp only [stormSeg, if_pos htr] at hstorm
            rcases habs sfs hstf with hnone | hnull
            · rw [stormLines, hnone] at hstorm
              injection hstorm with h2
              exact h2.symm
            · rw [stormLines, hnull] at hstorm
              simp only [stormProbVal] at hstorm
              injection hstorm with h2
              exact h2.symm
          · simp only [stormSeg, if_neg htr] at hstorm
            injection hstorm with h2
            exact h2.symm
        | null =>
          injection hstorm with h2
          exact h2.symm
        | bool b =>
          simp only [stormSeg] at hstorm
          by_cases hb : truthy (JVal.bool b)
          · rw [if_pos hb] at hstorm; cases hstorm
          · rw [if_neg hb] at hstorm
            injection hstorm with h2
            exact h2.symm
        | num q2 =>
          simp only [stormSeg] at hstorm
          by_cases hb : truthy (JVal.num q2)
          · rw [if_pos hb] at hstorm; cases hstorm
          · rw [if_neg hb] at hstorm
            injection hstorm with h2
            exact h2.symm
        | str s2 =>
          simp only [stormSeg] at hstorm
          by_cases hb : truthy (JVal.str s2)
          · rw [if_pos hb] at hstorm; cases hstorm
          · rw [if_neg hb] at hstorm
            injection hstorm with h2
            exact h2.symm
    constructor
    · intro hin
      rw [(hwmem q k).1, hse] at hin
      simp at hin
    · intro hin
      rw [(hwmem q k).2, hse] at hin
      simp at hin

/-- C7 witness: the spec example storm block with probability 55 renders
the warning-marked storm line. -/
theorem c7_storm_lines_witness :
    fieldsLookup [("storm", JVal.obj [("probability", JVal.num 55),
        ("predicted_kp", JVal.num 6)])] "error" = none ∧
    format_standard [("storm", JVal.obj [("probability", JVal.num 55),
        ("predicted_kp", JVal.num 6)])] ALL_BANDS false
      = some [StdLine.blank, StdLine.banner, StdLine.title, StdLine.banner, StdLine.blank,
          StdLine.tableHeader, StdLine.tableRule, StdLine.blank, StdLine.stormWarn 55 6,
          StdLine.banner, StdLine.sourceLine "wspr.hb9vqq.ch", StdLine.blank] ∧
    ((∀ (sfs : Fields) (p : ℚ),
      fieldsLookup [("storm", JVal.obj [("probability", JVal.num 55),
        ("predicted_kp", JVal.num 6)])] "storm" = some (JVal.obj sfs) →
      fieldsLookup sfs "probability" = some (JVal.num p) →
      ((∃ k, StdLine.stormWarn p k ∈
          [StdLine.blank, StdLine.banner, StdLine.title, StdLine.banner, StdLine.blank,
            StdLine.tableHeader, StdLine.tableRule, StdLine.blank, StdLine.stormWarn 55 6,
            StdLine.banner, StdLine.sourceLine "wspr.hb9vqq.ch", StdLine.blank]) ↔ 50 ≤ p) ∧
      ((∃ k, StdLine.stormInfo p k ∈
          [StdLine.blank, StdLine.banner, StdLine.title, StdLine.banner, StdLine.blank,
            StdLine.tableHeader, StdLine.tableRule, StdLine.blank, StdLine.stormWarn 55 6,
            StdLine.banner, StdLine.sourceLine "wspr.hb9vqq.ch", StdLine.blank]) ↔
        (30 ≤ p ∧ p < 50)) ∧
      (p < 30 → ∀ q k, ¬ StdLine.stormWarn q k ∈
          [StdLine.blank, StdLine.banner, StdLine.title, StdLine.banner, StdLine.blank,
            StdLine.tableHeader, StdLine.tableRule, StdLine.blank, StdLine.stormWarn 55 6,
            StdLine.banner, StdLine.sourceLine "wspr.hb9vqq.ch", StdLine.blank] ∧
        ¬ StdLine.stormInfo q k ∈
          [StdLine.blank, StdLine.banner, StdLine.title, StdLine.banner, StdLine.blank,
            StdLine.tableHeader, StdLine.tableRule, StdLine.blank, StdLine.stormWarn 55 6,
            StdLine.banner, StdLine.sourceLine "wspr.hb9vqq.ch", StdLine.blank])) ∧
    ((∀ sfs : Fields,
      fieldsLookup [("storm", JVal.obj [("probability", JVal.num 55),
        ("predicted_kp", JVal.num 6)])] "storm" = some (JVal.obj sfs) →
        fieldsLookup sfs "probability" = none ∨
        fieldsLookup sfs "probability" = some JVal.null) →
      ∀ q k, ¬ StdLine.stormWarn q k ∈
          [StdLine.blank, StdLine.banner, StdLine.title, StdLine.banner, StdLine.blank,
            StdLine.tableHeader, StdLine.tableRule, StdLine.blank, StdLine.stormWarn 55 6,
            StdLine.banner, StdLine.sourceLine "wspr.hb9vqq.ch", StdLine.blank] ∧
        ¬ StdLine.stormInfo q k ∈
          [StdLine.blank, StdLine.banner, StdLine.title, StdLine.banner, StdLine.blank,
            StdLine.tableHeader, StdLine.tableRule, StdLine.blank, StdLine.stormWarn 55 6,
            StdLine.banner, StdLine.sourceLine "wspr.hb9vqq.ch", StdLine.blank])) :=
  ⟨rfl, rfl,
    c7_storm_lines [("storm", JVal.obj [("probability", JVal.num 55),
      ("predicted_kp", JVal.num 6)])] ALL_BANDS false _ rfl rfl⟩

/- Removing one key leaves every other lookup unchanged. -/
theorem fieldsLookup_eraseKey_ne (data : Fields) (k k' : String) (h : ¬ k' = k) :
    fieldsLookup (eraseKey data k) k' = fieldsLookup data k' := by
  induction data with
  | nil => rfl
  | cons kv rest ih =>
    obtain ⟨a, v⟩ := kv
    by_cases hak : a = k
    · have hak' : ¬ a = k' := fun hh => h (hh ▸ hak)
      simp [eraseKey, hak, fieldsLookup, hak', ih]
      rw [if_neg (fun hh : k = k' => h hh.symm)]
    · simp [eraseKey, hak, fieldsLookup, ih]

/- Removing a key empties its lookup. -/
theorem fieldsLookup_eraseKey_self (data : Fields) (k : String) :
    fieldsLookup (eraseKey data k) k = none := by
  induction data with
  | nil => rfl
  | cons kv rest ih =>
    obtain ⟨a, v⟩ := kv
    by_cases hak : a = k
    · simp [eraseKey, hak, ih]
    · simp [eraseKey, hak, fieldsLookup, ih]

/-- C9: the Standard renderer parses the updated string after replacing Z
by +00:00; on an error-free document, when the parse fails the renderer
behaves exactly as if the updated field were absent — it still succeeds
whenever the rest of the document renders, and emits no timestamp line —
and when the parse succeeds the parsed timestamp line is emitted. -/
theorem c9_timestamp_recovery (data : Fields) (bands : List String) (a : Bool)
    (u : String) (herr : fieldsLookup data "error" = none)
    (hupd : fieldsLookup data "updated" = some (JVal.str u)) :
    (fromisoformat (replaceZ u) = none →
      format_standard data bands a = format_standard (eraseKey data "updated") bands a ∧
      ∀ ls, format_standard data bands a = some ls →
        ∀ ts, ¬ StdLine.updatedLine ts ∈ ls) ∧
    (∀ ts, fromisoformat (replaceZ u) = some ts →
      ∀ ls, format_standard data bands a = some ls → StdLine.updatedLine ts ∈ ls) := by
  have e1 : fieldsLookup (eraseKey data "updated") "error" = fieldsLookup data "error" :=
    fieldsLookup_eraseKey_ne data "updated" "error" (by decide)
  have e2 : fieldsLookup (eraseKey data "updated") "bands" = fieldsLookup data "bands" :=
    fieldsLookup_eraseKey_ne data "updated" "bands" (by decide)
  have e3 : fieldsLookup (eraseKey data "updated") "solar" = fieldsLookup data "solar" :=
    fieldsLookup_eraseKey_ne data "updated" "solar" (by decide)
  have e4 : fieldsLookup (eraseKey data "updated") "storm" = fieldsLookup data "storm" :=
    fieldsLookup_eraseKey_ne data "updated" "storm" (by decide)
  have e5 : fieldsLookup (eraseKey data "updated") "source" = fieldsLookup data "source" :=
    fieldsLookup_eraseKey_ne data "updated" "source" (by decide)
  have e0 : fieldsLookup (eraseKey data "updated") "updated" = none :=
    fieldsLookup_eraseKey_self data "updated"
  constructor
  · intro hparse
    have hupdseg : updSeg (fieldsLookup data "updated") = [] := by
      rw [hupd]
      simp only [updSeg]
      rw [hparse]
    constructor
    · rw [format_standard, format_standard, e1, e2, e3, e4, e5, e0, hupd]
      rw [show updSeg (some (JVal.str u)) = [] from by simp only [updSeg]; rw [hparse]]
      rfl
    · intro ls hls ts hin
      obtain ⟨rows, solar, storm, src, hrows, hsolar, hstorm, hsrc, hls2⟩ :=
        format_standard_inv data bands a ls herr hls
      subst hls2
      rw [hupdseg] at hin
      rcases assembled_cases _ _ _ _ _ _ (fun y hy => absurd hy (List.not_mem_nil y))
          (bandRows_shape _ _ _ _ hrows) (solarSeg_shape _ _ hsolar)
          (stormSeg_shape _ _ hstorm) (sourceSeg_shape _ _ hsrc) hin with
        ⟨hm, _⟩ | ⟨_, b2, i, sy, rv, ar, f, fr, hc⟩ | ⟨_, s2, k2, hc⟩ |
        ⟨_, ⟨p, k2, hc⟩ | ⟨p, k2, hc⟩⟩ | ⟨s2, hc⟩ | hc | hc | hc | hc | hc
      · simp at hm
      · simp at hc
      · simp at hc
      · simp at hc
      · simp at hc
      · simp at hc
      · simp at hc
      · simp at hc
      · simp at hc
      · simp at hc
      · simp at hc
  · intro ts hts ls hls
    obtain ⟨rows, solar, storm, src, hrows, hsolar, hstorm, hsrc, hls2⟩ :=
      format_standard_inv data bands a ls herr hls
    subst hls2
    have hupdseg : updSeg (fieldsLookup data "updated") = [StdLine.updatedLine ts] := by
      rw [hupd]
      simp only [updSeg]
      rw [hts]
    refine (mem_assembled _ _ _ _ _ _).mpr (Or.inl ?_)
    rw [hupdseg]
    simp

/-- C9 witness: an unparsable updated string is recovered by omitting the
timestamp line. -/
theorem c9_timestamp_recovery_witness :
    fieldsLookup [("updated", JVal.str "not-a-date")] "error" = none ∧
    fieldsLookup [("updated", JVal.str "not-a-date")] "updated"
        = some (JVal.str "not-a-date") ∧
    ((fromisoformat (replaceZ "not-a-date") = none →
      format_standard [("updated", JVal.str "not-a-date")] ALL_BANDS false
          = format_standard (eraseKey [("updated", JVal.str "not-a-date")] "updated")
              ALL_BANDS false ∧
      ∀ ls, format_standard [("updated", JVal.str "not-a-date")] ALL_BANDS false = some ls →
        ∀ ts, ¬ StdLine.updatedLine ts ∈ ls) ∧
    (∀ ts, fromisoformat (replaceZ "not-a-date") = some ts →
      ∀ ls, format_standard [("updated", JVal.str "not-a-date")] ALL_BANDS false = some ls →
        StdLine.updatedLine ts ∈ ls)) :=
  ⟨rfl, rfl,
    c9_timestamp_recovery [("updated", JVal.str "not-a-date")] ALL_BANDS false
      "not-a-date" rfl rfl⟩
